import Mathlib

/-!
Verification of the `router_macros` crate (`src/crates/router_macros/src/lib.rs`):
a compile-time generator turning an annotated route enumeration into a URL
builder, an HTTP-method lookup and an axum route table.

The development shallowly embeds the crate's pure transformation logic:
* attribute scanning and `RouteVariant::from` (lines 328-366),
* the URL formatting templates `right_from_unnamed` / `right_from_named`
  (lines 224-258) together with the runtime semantics of the emitted
  `format!` call,
* the match-pattern generator `left` (lines 268-299),
* the identifier transform `pascal_to_camel` (lines 301-318),
* the emitter `routes_macro` (lines 58-222): url/method match arms, the
  `.route(...)` registration list, the state generic and the optional
  static-file handler.

Rust strings are modelled as Lean `String` / `List Char`; the results of
`syn` parses (`attr.path.get_ident()`, `attr.parse_args::<LitStr>()`,
`attr.parse_args::<Args>()`) are modelled as `Option`-valued fields of the
attribute record, since `syn` is an external library. Character case
functions are modelled at ASCII granularity (Lean's `Char.toLower` and
`Char.isUpper` agree with the Rust calls on ASCII input).
-/

/-- A runtime field value. The generated code formats field values with the
external `Display` and `Debug` traits; we model the two renderings for the
primitive shapes the specification exercises: strings and integers. -/
inductive Val where
  | str (s : String)
  | int (n : Int)
  deriving DecidableEq, Repr

/-- `Debug`-escaping of one character inside a string literal rendering
(quote and backslash are escaped). -/
def escDebugChar (c : Char) : List Char :=
  if c = '"' then ['\\', '"']
  else if c = '\\' then ['\\', '\\'] else [c]

/-- `Display` rendering (plain marker): a string renders as itself, an
integer as its decimal digits. -/
def Val.display : Val → String
  | .str s => s
  | .int n => toString n

/-- `Debug` rendering (question-mark marker): a string renders quoted (with
quote and backslash escaped), an integer as its decimal digits. -/
def Val.debugFmt : Val → String
  | .str s => ⟨'"' :: (s.data.flatMap escDebugChar) ++ ['"']⟩
  | .int n => toString n

/-- Runtime semantics of Rust `format!`: scan the template, replacing each
two-character marker with the `Display` rendering of the next argument and
each four-character `:?` marker with its `Debug` rendering; other characters
pass through. -/
def renderFormat : List Char → List Val → List Char
  | [], _ => []
  | '{' :: '}' :: rest, v :: vs => (Val.display v).data ++ renderFormat rest vs
  | '{' :: '}' :: rest, [] => renderFormat rest []
  | '{' :: ':' :: '?' :: '}' :: rest, v :: vs => (Val.debugFmt v).data ++ renderFormat rest vs
  | '{' :: ':' :: '?' :: '}' :: rest, [] => renderFormat rest []
  | c :: rest, vs => c :: renderFormat rest vs

/-- Rust `str::split('/')`: splits at every slash, keeping empty segments
(so a leading slash yields a leading empty segment). -/
def splitSlash : List Char → List (List Char)
  | [] => [[]]
  | c :: rest =>
    if c = '/' then [] :: splitSlash rest
    else
      match splitSlash rest with
      | s :: ss => (c :: s) :: ss
      | [] => [[c]]

/-- Rust `Vec::join(sep)` on a list of strings, for a one-character
separator. -/
def joinSep (sep : Char) : List (List Char) → List Char
  | [] => []
  | [s] => s
  | s :: t :: rest => s ++ sep :: joinSep sep (t :: rest)

/-- Rust `part.starts_with(":")`. -/
def startsColon : List Char → Bool
  | ':' :: _ => true
  | _ => false

/-- Segment rewriting of `right_from_unnamed` (lib.rs 225-230): a segment
starting with `:` becomes the substitution marker, others pass through. -/
def markSeg (seg : List Char) : List Char :=
  if startsColon seg then ['{', '}'] else seg

/-- The format template built by `right_from_unnamed` (lib.rs 224-240):
split the path on `/`, replace placeholder segments by markers, rejoin. -/
def rightFromUnnamedTemplate (path : String) : String :=
  ⟨joinSep '/' ((splitSlash path.data).map markSeg)⟩

/-- The query entry `name=` followed by the `Debug` marker, as built by
`right_from_named` for one field name (lib.rs 251). -/
def queryEntry (name : String) : List Char :=
  name.data ++ '=' :: '{' :: ':' :: '?' :: '}' :: []

/-- The format template built by `right_from_named` (lib.rs 242-258):
the path, `?`, then the per-field query entries joined by `&`. -/
def rightFromNamedTemplate (names : List String) (path : String) : String :=
  ⟨path.data ++ '?' :: joinSep '&' (names.map queryEntry)⟩

/-- The field shape of an enum variant (`syn::Fields`). -/
inductive FieldsShape where
  | unit
  | unnamed (n : Nat)
  | named (names : List String)
  deriving DecidableEq, Repr

/-- The right-hand side of one generated `url()` match arm: either the
literal path (`#path.to_owned()`) or a `format!` call on a template with
the bound field identifiers as arguments. -/
inductive UrlRhs where
  | litPath (path : String)
  | formatCall (template : String) (argIdents : List String)
  deriving DecidableEq, Repr

/-- The generated positional binder names `x0`, `x1`, ... (lib.rs 236
and 285). -/
def xIdents (n : Nat) : List String :=
  (List.range n).map (fun i => "x" ++ toString i)

/-- `right` (lib.rs 260-266): selects the url expression per field
shape. -/
def right (fields : FieldsShape) (path : String) : UrlRhs :=
  match fields with
  | .named names => .formatCall (rightFromNamedTemplate names path) names
  | .unnamed n => .formatCall (rightFromUnnamedTemplate path) (xIdents n)
  | .unit => .litPath path

/-- Runtime evaluation of a generated url right-hand side: in the emitted
code the `format!` arguments are the pattern-bound field values, in
declaration order. -/
def evalUrlRhs (r : UrlRhs) (vals : List Val) : String :=
  match r with
  | .litPath p => p
  | .formatCall tmpl _ => ⟨renderFormat tmpl.data vals⟩

/-- The URL rendered at runtime by the generated `url()` arm for a variant
with the given field shape, path annotation and field values (in
declaration order). -/
def urlRender (fields : FieldsShape) (path : String) (vals : List Val) : String :=
  evalUrlRhs (right fields path) vals

/-- Specification-side segment substitution: each placeholder segment is
replaced by the `Display` rendering of the next positional value, left to
right; literal segments pass through. (The value-less placeholder case is
unreachable under the placeholder-count hypothesis and keeps the marker.) -/
def substSegs : List (List Char) → List Val → List (List Char)
  | [], _ => []
  | seg :: rest, vals =>
    if startsColon seg then
      match vals with
      | v :: vs => (Val.display v).data :: substSegs rest vs
      | [] => ['{', '}'] :: substSegs rest []
    else seg :: substSegs rest vals

/-- Number of placeholder segments of a split path. -/
def countPH (segs : List (List Char)) : Nat :=
  (segs.filter startsColon).length

/-- One variant-level annotation, as the attribute parser sees it:
`path` is the result of `attr.path.get_ident()`, `arg` the result of
`attr.parse_args::<LitStr>()` (the literal's value when it parses), and
`stateArg` the result of `attr.parse_args::<Args>()` (an optional type,
itself optional because the parse can fail). -/
structure Attr where
  path : Option String
  arg : Option String
  stateArg : Option (Option String)
  deriving DecidableEq, Repr

/-- The per-attribute selection of `RouteVariant::from` (lib.rs 334-352):
an annotation with an identifier and a parseable string argument yields a
(method, path) pair unless the identifier is `folder`; an annotation with
an identifier but no parseable string argument is assumed to be `embed`
and synthesizes `("get", "/*file")`; anything else yields nothing. -/
def attrPair (a : Attr) : Option (String × String) :=
  match a.path, a.arg with
  | some ident, some p => if ident ≠ "folder" then some (ident, p) else none
  | some _, none => some ("get", "/*file")
  | none, _ => none

/-- The panic message of `RouteVariant::from` (lib.rs 354-356). -/
def expectMsg : String :=
  "should be #[get], #[post], #[put], #[delete], #[state], #[embed] or #[folder]"

/-- The helper attributes registered by the derive (lib.rs 46-49). -/
def routesAttributes : List String :=
  ["get", "post", "delete", "patch", "put", "state", "embed", "folder"]

/-- The normalized route model (lib.rs 320-326). -/
structure RouteVariant where
  method : String
  path : String
  variant : String
  fields : FieldsShape
  deriving DecidableEq, Repr

/-- One variant of the input enumeration, as syntax: its name, its
annotations and its field shape. -/
structure VariantSyn where
  ident : String
  attrs : List Attr
  fields : FieldsShape
  deriving DecidableEq, Repr

/-- `RouteVariant::from` (lib.rs 328-366): filter-map the annotations
through `attrPair`, take the last produced pair; panic with `expectMsg`
when there is none. The panic is modelled as the error case. -/
def routeVariantFrom (v : VariantSyn) : Except String RouteVariant :=
  match (v.attrs.filterMap attrPair).getLast? with
  | some mp => .ok ⟨mp.1, mp.2, v.ident, v.fields⟩
  | none => .error expectMsg

/-- The loop body of `pascal_to_camel` over the characters after the
first (lib.rs 308-315). -/
def pascalRest : List Char → List Char
  | [] => []
  | ch :: t => if ch.isUpper then '_' :: ch.toLower :: pascalRest t else ch :: pascalRest t

/-- `pascal_to_camel` (lib.rs 301-318): lowercase the first character,
then prefix every later uppercase character with an underscore and
lowercase it. -/
def pascal_to_camel (input : String) : String :=
  match input.data with
  | [] => ""
  | c :: rest => ⟨c.toLower :: pascalRest rest⟩

/-- Specification-side per-character step of the identifier transform. -/
def camelStep (ch : Char) : List Char :=
  if ch.isUpper then ['_', ch.toLower] else [ch]

/-- A generated match-arm pattern (`left`, lib.rs 293-299): bare variant,
variant with generated positional binders, or variant with its field names
bound by shorthand. -/
inductive Pattern where
  | bare (enumName variantName : String)
  | positional (enumName variantName : String) (binders : List String)
  | namedPat (enumName variantName : String) (binders : List String)
  deriving DecidableEq, Repr

/-- `left` (lib.rs 268-299): the destructuring pattern for a variant under
its field shape. -/
def leftPat (enumName variantName : String) (fields : FieldsShape) : Pattern :=
  match fields with
  | .named names => .namedPat enumName variantName names
  | .unnamed n => .positional enumName variantName (xIdents n)
  | .unit => .bare enumName variantName

/-- The `url()` match arms (lib.rs 85-100): one arm per variant in
declaration order, pattern from `left`, expression from `right`. -/
def urlArmsOf (enumName : String) (rvs : List RouteVariant) : List (Pattern × UrlRhs) :=
  rvs.map (fun rv => (leftPat enumName rv.variant rv.fields, right rv.fields rv.path))

/-- The `method()` match arms (lib.rs 102-117): one arm per variant in
declaration order, the same pattern, the method string as expression. -/
def methodArmsOf (enumName : String) (rvs : List RouteVariant) : List (Pattern × String) :=
  rvs.map (fun rv => (leftPat enumName rv.variant rv.fields, rv.method))

/-- The `.route(path, method(handler))` registrations (lib.rs 119-133):
one per variant in declaration order; the handler name is the
`pascal_to_camel` transform of the variant name. -/
def axumRoutes (rvs : List RouteVariant) : List (String × String × String) :=
  rvs.map (fun rv => (rv.path, rv.method, pascal_to_camel rv.variant))

/-- The state generic of the generated router (lib.rs 64-77): the last
parseable argument of a schema-level `state` annotation; unit when there
is none, empty token text when the annotation parses but carries no
type. -/
def stateGeneric (attrs : List Attr) : String :=
  match ((attrs.filter (fun a => a.path == some "state")).filterMap
      (fun a => a.stateArg)).getLast? with
  | some (some t) => t
  | some none => ""
  | none => "()"

/-- The route-table type in the generated `router()` signature
(lib.rs 208). -/
def routerSigOf (attrs : List Attr) : String :=
  "::axum::Router<" ++ stateGeneric attrs ++ ">"

/-- Test for the asset-embedding marker annotation. -/
def isEmbedAttr (a : Attr) : Bool :=
  a.path == some "embed"

/-- Test for the asset-folder annotation. -/
def isFolderAttr (a : Attr) : Bool :=
  a.path == some "folder"

/-- Whether a variant carries the `embed` annotation (lib.rs 138-144). -/
def carriesEmbed (v : VariantSyn) : Bool :=
  (v.attrs.find? isEmbedAttr).isSome

/-- The designated asset-embedding variant (lib.rs 135-149): the last
variant carrying an `embed` annotation, if any. -/
def embedIdent (variants : List VariantSyn) : Option String :=
  ((variants.filter carriesEmbed).getLast?).map VariantSyn.ident

/-- The selected asset-folder annotation (lib.rs 150-159): per variant the
first `folder` annotation, across variants the last one. -/
def folderAttrOf (variants : List VariantSyn) : Option Attr :=
  (variants.filterMap (fun v => v.attrs.find? isFolderAttr)).getLast?

/-- The folder path for the embedded assets (lib.rs 160-166): the string
argument of the selected folder annotation, `"static"` when it is missing
or does not parse. -/
def folderOf (variants : List VariantSyn) : String :=
  match folderAttrOf variants with
  | some a =>
    match a.arg with
    | some s => s
    | none => "static"
  | none => "static"

/-- The emitted static-file handlers (lib.rs 167-191): when an embed
variant is designated, exactly one handler, named by the
`pascal_to_camel` transform of that variant's name and bound to the
selected folder; otherwise none. -/
def handlersOf (variants : List VariantSyn) : List (String × String) :=
  match embedIdent variants with
  | some nm => [(pascal_to_camel nm, folderOf variants)]
  | none => []

/-- The full annotated enumeration given to the derive. -/
structure Schema where
  name : String
  attrs : List Attr
  variants : List VariantSyn
  deriving DecidableEq, Repr

/-- The eager `variants.iter().map(RouteVariant::from).collect()` of
lib.rs 79-83: the first panicking variant aborts generation. -/
def buildVariants : List VariantSyn → Except String (List RouteVariant)
  | [] => .ok []
  | v :: rest =>
    match routeVariantFrom v with
    | .error e => .error e
    | .ok rv =>
      match buildVariants rest with
      | .error e => .error e
      | .ok rvs => .ok (rv :: rvs)

/-- The artifacts assembled by `routes_macro` (lib.rs 193-221). -/
structure Generated where
  urlArms : List (Pattern × UrlRhs)
  methodArms : List (Pattern × String)
  routeRegs : List (String × String × String)
  routerSig : String
  handlers : List (String × String)
  deriving DecidableEq, Repr, Inhabited

/-- `routes_macro` (lib.rs 58-222): build the route models (failing when a
variant has no usable annotation), then emit the url arms, method arms,
route registrations, router signature and optional asset handler. -/
def routesMacro (s : Schema) : Except String Generated :=
  match buildVariants s.variants with
  | .error e => .error e
  | .ok rvs =>
    .ok
      { urlArms := urlArmsOf s.name rvs
        methodArms := methodArmsOf s.name rvs
        routeRegs := axumRoutes rvs
        routerSig := routerSigOf s.attrs
        handlers := handlersOf s.variants }

/-- Substring test on character lists (used to state that a diagnostic
names an annotation form). -/
def hasSub : List Char → List Char → Bool
  | _, [] => true
  | [], _ :: _ => false
  | h :: t, n :: nt => ((n :: nt).isPrefixOf (h :: t)) || hasSub t (n :: nt)

/-- Concrete variant carrying two method annotations (for the last-wins
behaviour). -/
def dupVariant : VariantSyn :=
  { ident := "Login"
    attrs := [{ path := some "get", arg := some "/a", stateArg := none },
              { path := some "post", arg := some "/b", stateArg := none }]
    fields := .unit }

/-- Concrete variant whose pair-yielding annotation follows a folder
annotation. -/
def folderedVariant : VariantSyn :=
  { ident := "Docs"
    attrs := [{ path := some "folder", arg := some "assets", stateArg := none },
              { path := some "get", arg := some "/docs", stateArg := none }]
    fields := .unit }

/-- Concrete variant with no annotations at all. -/
def bareVariant : VariantSyn :=
  { ident := "Health", attrs := [], fields := .unit }

/-- Concrete schema whose only variant has no usable annotation. -/
def bareSchema : Schema :=
  { name := "Routes", attrs := [], variants := [bareVariant] }

/-- Concrete embed annotation (no parseable string argument). -/
def embedAttr : Attr :=
  { path := some "embed", arg := none, stateArg := none }

/-- Concrete asset-embedding variant. -/
def assetsVariant : VariantSyn :=
  { ident := "Assets", attrs := [embedAttr], fields := .unit }

/-- Concrete plain route variant. -/
def healthVariant : VariantSyn :=
  { ident := "Health"
    attrs := [{ path := some "get", arg := some "/health", stateArg := none }]
    fields := .unit }

/-- Concrete schema with a plain route and an asset variant. -/
def sampleSchema : Schema :=
  { name := "Routes", attrs := [], variants := [healthVariant, assetsVariant] }

/-- The generation result for `sampleSchema`. -/
def sampleGen : Generated :=
  match routesMacro sampleSchema with
  | .ok g => g
  | .error _ => default

/-- Concrete route models for the registration-order claim. -/
def sampleRvs : List RouteVariant :=
  [⟨"get", "/health", "Health", .unit⟩, ⟨"post", "/items", "NewItem", .unit⟩]

/-- Concrete schema-level state annotation. -/
def stateAttrs : List Attr :=
  [{ path := some "state", arg := none, stateArg := some (some "AppState") }]

/-- Concrete variant with a folder annotation carrying argument "one". -/
def folderA : VariantSyn :=
  { ident := "A"
    attrs := [{ path := some "folder", arg := some "one", stateArg := none }]
    fields := .unit }

/-- Concrete variant with a folder annotation carrying argument "two". -/
def folderB : VariantSyn :=
  { ident := "B"
    attrs := [{ path := some "folder", arg := some "two", stateArg := none }]
    fields := .unit }

/-- Concrete variant with a folder annotation whose argument does not
parse as a string. -/
def folderBadB : VariantSyn :=
  { ident := "B"
    attrs := [{ path := some "folder", arg := none, stateArg := none }]
    fields := .unit }

/-- Two variants both carrying folder annotations. -/
def folderVariants : List VariantSyn := [folderA, folderB]

/-- Two folder-annotated variants, the later one with an unparseable
argument. -/
def folderVariantsBad : List VariantSyn := [folderA, folderBadB]

-- ===================================================================
-- Helper lemmas
-- ===================================================================

theorem renderFormat_cons_of_ne {c : Char} (hc : c ≠ '{') (cs : List Char) (vs : List Val) :
    renderFormat (c :: cs) vs = c :: renderFormat cs vs := by
  rw [renderFormat.eq_def]
  split <;> simp_all

theorem renderFormat_display (rest : List Char) (v : Val) (vs : List Val) :
    renderFormat ('{' :: '}' :: rest) (v :: vs) = (Val.display v).data ++ renderFormat rest vs := by
  simp [renderFormat]

theorem renderFormat_debug (rest : List Char) (v : Val) (vs : List Val) :
    renderFormat ('{' :: ':' :: '?' :: '}' :: rest) (v :: vs) =
      (Val.debugFmt v).data ++ renderFormat rest vs := by
  simp [renderFormat]

theorem renderFormat_nomark (l1 : List Char) (h : '{' ∉ l1) (l2 : List Char) (vs : List Val) :
    renderFormat (l1 ++ l2) vs = l1 ++ renderFormat l2 vs := by
  induction l1 with
  | nil => simp
  | cons c t ih =>
    have hc : c ≠ '{' := by
      intro h2
      exact h (h2 ▸ List.mem_cons_self c t)
    have ht : '{' ∉ t := fun h2 => h (List.mem_cons_of_mem c h2)
    simp only [List.cons_append, renderFormat_cons_of_ne hc, ih ht]

theorem substSegs_cons (a : List Char) (l : List (List Char)) (vs : List Val) :
    ∃ s0 ss, substSegs (a :: l) vs = s0 :: ss := by
  by_cases h : startsColon a
  · cases vs with
    | nil => exact ⟨['{', '}'], substSegs l [], by simp [substSegs, h]⟩
    | cons v vs2 => exact ⟨(Val.display v).data, substSegs l vs2, by simp [substSegs, h]⟩
  · exact ⟨a, substSegs l vs, by simp [substSegs, h]⟩

theorem render_join_subst (segs : List (List Char)) (vals : List Val)
    (hlit : ∀ seg ∈ segs, startsColon seg = false → '{' ∉ seg)
    (hcount : countPH segs = vals.length) :
    renderFormat (joinSep '/' (segs.map markSeg)) vals =
      joinSep '/' (substSegs segs vals) := by
  induction segs generalizing vals with
  | nil =>
    have : vals.length = 0 := by simpa [countPH] using hcount.symm
    simp [joinSep, substSegs, renderFormat]
  | cons seg rest ih =>
    have hlit' : ∀ s ∈ rest, startsColon s = false → '{' ∉ s :=
      fun s hs => hlit s (List.mem_cons_of_mem seg hs)
    cases rest with
    | nil =>
      by_cases hseg : startsColon seg
      · obtain ⟨v, vs, rfl⟩ : ∃ v vs, vals = v :: vs := by
          cases vals with
          | nil => simp [countPH, hseg] at hcount
          | cons v vs => exact ⟨v, vs, rfl⟩
        cases vs with
        | cons v2 vs2 => simp [countPH, hseg] at hcount
        | nil =>
          simp [joinSep, markSeg, hseg, substSegs, renderFormat_display, renderFormat]
      · simp only [List.map_cons, List.map_nil, joinSep, markSeg, hseg, if_false,
          substSegs, Bool.false_eq_true]
        have h1 : '{' ∉ seg := hlit seg (List.mem_cons_self seg []) (by simp [hseg])
        have h2 := renderFormat_nomark seg h1 [] vals
        simpa [renderFormat] using h2
    | cons r rs =>
      by_cases hseg : startsColon seg
      · obtain ⟨v, vs, rfl⟩ : ∃ v vs, vals = v :: vs := by
          cases vals with
          | nil => simp [countPH, hseg] at hcount
          | cons v vs => exact ⟨v, vs, rfl⟩
        have hcount' : countPH (r :: rs) = vs.length := by
          simp [countPH, hseg] at hcount ⊢
          omega
        have hmain := ih vs hlit' hcount'
        have hjoin : joinSep '/' ((seg :: r :: rs).map markSeg) =
            '{' :: '}' :: '/' :: joinSep '/' ((r :: rs).map markSeg) := by
          simp [joinSep, markSeg, hseg]
        rw [hjoin, renderFormat_display, renderFormat_cons_of_ne (by decide) _ vs, hmain]
        have hsub : substSegs (seg :: r :: rs) (v :: vs) =
            (Val.display v).data :: substSegs (r :: rs) vs := by
          simp [substSegs, hseg]
        rw [hsub]
        obtain ⟨s0, ss, hss⟩ := substSegs_cons r rs vs
        rw [hss]
        simp [joinSep]
      · have h1 : '{' ∉ seg := hlit seg (List.mem_cons_self seg _) (by simp [hseg])
        have hcount' : countPH (r :: rs) = vals.length := by
          simpa [countPH, hseg] using hcount
        have hmain := ih vals hlit' hcount'
        have hjoin : joinSep '/' ((seg :: r :: rs).map markSeg) =
            seg ++ '/' :: joinSep '/' ((r :: rs).map markSeg) := by
          simp [joinSep, markSeg, hseg]
        rw [hjoin, renderFormat_nomark seg h1, renderFormat_cons_of_ne (by decide), hmain]
        have hsub : substSegs (seg :: r :: rs) vals =
            seg :: substSegs (r :: rs) vals := by
          simp [substSegs, hseg]
        rw [hsub]
        obtain ⟨s0, ss, hss⟩ := substSegs_cons r rs vals
        rw [hss]
        simp [joinSep]

theorem render_query (names : List String) (vals : List Val)
    (hlit : ∀ n ∈ names, '{' ∉ n.data)
    (hlen : names.length = vals.length) :
    renderFormat (joinSep '&' (names.map queryEntry)) vals =
      joinSep '&' (List.zipWith (fun n v => n.data ++ '=' :: (Val.debugFmt v).data) names vals) := by
  induction names generalizing vals with
  | nil =>
    cases vals with
    | nil => simp [joinSep, renderFormat]
    | cons v vs => simp at hlen
  | cons n rest ih =>
    obtain ⟨v, vs, rfl⟩ : ∃ v vs, vals = v :: vs := by
      cases vals with
      | nil => simp at hlen
      | cons v vs => exact ⟨v, vs, rfl⟩
    have hn : '{' ∉ n.data := hlit n (List.mem_cons_self n rest)
    have hlit' : ∀ m ∈ rest, '{' ∉ m.data := fun m hm => hlit m (List.mem_cons_of_mem n hm)
    have hlen' : rest.length = vs.length := by simpa using hlen
    cases rest with
    | nil =>
      cases vs with
      | cons v2 vs2 => simp at hlen'
      | nil =>
        show renderFormat (queryEntry n) [v] = _
        rw [queryEntry, renderFormat_nomark n.data hn,
          renderFormat_cons_of_ne (by decide), renderFormat_debug]
        simp [joinSep, renderFormat]
    | cons m rest2 =>
      obtain ⟨v2, vs2, rfl⟩ : ∃ v2 vs2, vs = v2 :: vs2 := by
        cases vs with
        | nil => simp at hlen'
        | cons v2 vs2 => exact ⟨v2, vs2, rfl⟩
      have hjoin : joinSep '&' ((n :: m :: rest2).map queryEntry) =
          n.data ++ '=' :: '{' :: ':' :: '?' :: '}' :: '&' ::
            joinSep '&' ((m :: rest2).map queryEntry) := by
        simp [joinSep, queryEntry]
      rw [hjoin, renderFormat_nomark n.data hn, renderFormat_cons_of_ne (by decide),
        renderFormat_debug, renderFormat_cons_of_ne (by decide), ih (v2 :: vs2) hlit' hlen']
      simp [joinSep]

theorem filterMap_getLast_eq {α β : Type} (f : α → Option β) (pre post : List α) (a : α)
    (b : β) (ha : f a = some b) (hpost : ∀ x ∈ post, f x = none) :
    (List.filterMap f (pre ++ a :: post)).getLast? = some b := by
  rw [List.filterMap_append, List.filterMap_cons_some ha,
    List.filterMap_eq_nil_iff.mpr hpost]
  exact List.getLast?_concat _

theorem filter_getLast_eq {α : Type} (p : α → Bool) (pre post : List α) (a : α)
    (ha : p a = true) (hpost : ∀ x ∈ post, p x = false) :
    (List.filter p (pre ++ a :: post)).getLast? = some a := by
  have hnil : List.filter p post = [] :=
    List.filter_eq_nil_iff.mpr (by intro x hx; simp [hpost x hx])
  rw [List.filter_append, List.filter_cons_of_pos ha, hnil]
  exact List.getLast?_concat _

theorem routeVariantFrom_none (v : VariantSyn) (h : ∀ a ∈ v.attrs, attrPair a = none) :
    routeVariantFrom v = .error expectMsg := by
  unfold routeVariantFrom
  rw [List.filterMap_eq_nil_iff.mpr h]
  rfl

theorem routeVariantFrom_last (v : VariantSyn) (pre post : List Attr) (a : Attr)
    (m p : String) (hattrs : v.attrs = pre ++ a :: post) (ha : attrPair a = some (m, p))
    (hpost : ∀ b ∈ post, attrPair b = none) :
    routeVariantFrom v = .ok ⟨m, p, v.ident, v.fields⟩ := by
  unfold routeVariantFrom
  rw [hattrs, filterMap_getLast_eq attrPair pre post a (m, p) ha hpost]

theorem routeVariantFrom_error_eq (v : VariantSyn) (e : String)
    (h : routeVariantFrom v = .error e) : e = expectMsg := by
  unfold routeVariantFrom at h
  cases hl : (v.attrs.filterMap attrPair).getLast? with
  | some mp => rw [hl] at h; cases h
  | none => rw [hl] at h; injection h with h2; exact h2.symm

theorem buildVariants_error (l : List VariantSyn) (v : VariantSyn) (hv : v ∈ l)
    (herr : routeVariantFrom v = .error expectMsg) :
    buildVariants l = .error expectMsg := by
  induction l with
  | nil => cases hv
  | cons h t ih =>
    rcases List.mem_cons.mp hv with rfl | hmem
    · simp [buildVariants, herr]
    · cases hh : routeVariantFrom h with
      | error e =>
        have := routeVariantFrom_error_eq h e hh
        simp [buildVariants, hh, this]
      | ok rv => simp [buildVariants, hh, ih hmem]

theorem buildVariants_length (l : List VariantSyn) :
    ∀ rvs, buildVariants l = .ok rvs → rvs.length = l.length := by
  induction l with
  | nil =>
    intro rvs h
    simp only [buildVariants] at h
    injection h with h2
    simp [← h2]
  | cons v t ih =>
    intro rvs h
    simp only [buildVariants] at h
    cases hv : routeVariantFrom v with
    | error e => rw [hv] at h; cases h
    | ok rv =>
      rw [hv] at h
      cases hb : buildVariants t with
      | error e => rw [hb] at h; cases h
      | ok rvs2 =>
        rw [hb] at h
        injection h with h2
        rw [← h2]
        simp [ih rvs2 hb]

theorem buildVariants_mid (pre : List VariantSyn) (v : VariantSyn) (post : List VariantSyn) :
    ∀ rvs, buildVariants (pre ++ v :: post) = .ok rvs →
      ∃ rpre rv rpost, rvs = rpre ++ rv :: rpost ∧ rpre.length = pre.length ∧
        routeVariantFrom v = .ok rv := by
  induction pre with
  | nil =>
    intro rvs h
    simp only [List.nil_append, buildVariants] at h
    cases hv : routeVariantFrom v with
    | error e => rw [hv] at h; cases h
    | ok rv =>
      rw [hv] at h
      cases hb : buildVariants post with
      | error e => rw [hb] at h; cases h
      | ok rps =>
        rw [hb] at h
        injection h with h2
        refine ⟨[], rv, rps, ?_, rfl, rfl⟩
        simpa using h2.symm
  | cons w pre2 ih =>
    intro rvs h
    simp only [List.cons_append, buildVariants, List.append_eq] at h
    cases hw : routeVariantFrom w with
    | error e => rw [hw] at h; cases h
    | ok rw2 =>
      rw [hw] at h
      cases hb : buildVariants (pre2 ++ v :: post) with
      | error e => rw [hb] at h; cases h
      | ok rvs2 =>
        rw [hb] at h
        injection h with h2
        obtain ⟨rpre, rv, rpost, hr1, hr2, hr3⟩ := ih rvs2 hb
        refine ⟨rw2 :: rpre, rv, rpost, ?_, by simp [hr2], hr3⟩
        rw [← h2, hr1]
        rfl

theorem getElem?_append_cons {α : Type} (l1 : List α) (x : α) (l2 : List α) :
    (l1 ++ x :: l2)[l1.length]? = some x := by
  rw [List.getElem?_append_right (le_refl _)]
  simp

theorem pascalRest_eq_flatMap (l : List Char) : pascalRest l = l.flatMap camelStep := by
  induction l with
  | nil => rfl
  | cons ch t ih =>
    by_cases h : ch.isUpper <;> simp [pascalRest, camelStep, h, ih]

theorem toLower_eq_of_not_upper (c : Char) (h : c.isUpper = false) : c.toLower = c := by
  unfold Char.toLower
  have h2 : ¬(c.toNat ≥ 65 ∧ c.toNat ≤ 90) := by
    simp only [Char.isUpper, Bool.and_eq_false_iff, decide_eq_false_iff_not] at h
    rcases h with h1 | h1
    · intro hc
      exact h1 hc.1
    · intro hc
      exact h1 hc.2
  simp only [h2, if_false]

theorem pascalRest_fix (l : List Char) (h : ∀ ch ∈ l, ch.isUpper = false) :
    pascalRest l = l := by
  induction l with
  | nil => rfl
  | cons ch t ih =>
    have h1 : ch.isUpper = false := h ch (List.mem_cons_self ch t)
    have h2 := ih (fun x hx => h x (List.mem_cons_of_mem ch hx))
    simp [pascalRest, h1, h2]

theorem pascal_fix (s : String) (h : ∀ ch ∈ s.data, ch.isUpper = false) :
    pascal_to_camel s = s := by
  obtain ⟨l⟩ := s
  cases l with
  | nil => rfl
  | cons c rest =>
    have h1 : c.isUpper = false := h c (List.mem_cons_self c rest)
    have h2 := pascalRest_fix rest (fun x hx => h x (List.mem_cons_of_mem c hx))
    simp [pascal_to_camel, toLower_eq_of_not_upper c h1, h2]

theorem hasSub_append_mid (pre mid post : List Char) :
    hasSub (pre ++ mid ++ post) mid = true := by
  induction pre with
  | nil =>
    cases mid with
    | nil => simp [hasSub]
    | cons n nt =>
      have hp : (n :: nt).isPrefixOf (n :: (nt ++ post)) = true :=
        List.isPrefixOf_iff_prefix.mpr (by simp)
      simp only [List.nil_append, List.cons_append, List.append_eq, hasSub, hp, Bool.true_or]
  | cons c pcs ih =>
    cases mid with
    | nil => simp [hasSub]
    | cons n nt =>
      simp only [List.cons_append, List.append_assoc] at ih ⊢
      simp only [hasSub]
      rw [ih]
      simp

-- ===================================================================
-- Claims
-- ===================================================================

/-- C1: for positional-field variants, the generated url expression splits
the path on `/`, turns every segment whose first character is `:` into a
substitution marker, rejoins with `/`, and fills marker i with positional
value i in declaration order; rendering "/items/:id" with value 42 gives
"/items/42". -/
theorem claim_C1 :
    (∀ (path : String) (vals : List Val),
      (∀ seg ∈ splitSlash path.data, startsColon seg = false → '{' ∉ seg) →
      countPH (splitSlash path.data) = vals.length →
      urlRender (.unnamed vals.length) path vals =
        ⟨joinSep '/' (substSegs (splitSlash path.data) vals)⟩) ∧
    urlRender (.unnamed 1) "/items/:id" [.int 42] = "/items/42" := by
  constructor
  · intro path vals h1 h2
    simp only [urlRender, right, evalUrlRhs, rightFromUnnamedTemplate]
    exact congrArg String.mk (render_join_subst _ _ h1 h2)
  · decide

/-- Witness for C1 at a concrete path with two placeholders. -/
theorem claim_C1_witness :
    urlRender (.unnamed 2) "/a/:x/:y" [.str "u", .int 5] =
      ⟨joinSep '/' (substSegs (splitSlash "/a/:x/:y".data) [.str "u", .int 5])⟩ :=
  claim_C1.1 "/a/:x/:y" [.str "u", .int 5] (by decide) (by decide)

/-- C2: for named-field variants, the generated url expression renders the
literal path, `?`, and one `name=`-debug-rendered entry per field in
declaration order joined by `&`; with fields a, b, path "/search", a = "x"
and b = 2 the result keeps the quotes of the debug rendering. -/
theorem claim_C2 :
    (∀ (path : String) (names : List String) (vals : List Val),
      '{' ∉ path.data →
      (∀ n ∈ names, '{' ∉ n.data) →
      names.length = vals.length →
      urlRender (.named names) path vals =
        ⟨path.data ++ '?' :: joinSep '&'
          (List.zipWith (fun n v => n.data ++ '=' :: (Val.debugFmt v).data) names vals)⟩) ∧
    urlRender (.named ["a", "b"]) "/search" [.str "x", .int 2] =
      "/search?a=\"x\"&b=2" := by
  constructor
  · intro path names vals hp hn hlen
    simp only [urlRender, right, evalUrlRhs, rightFromNamedTemplate]
    refine congrArg String.mk ?_
    show renderFormat (path.data ++ '?' :: joinSep '&' (names.map queryEntry)) vals = _
    rw [renderFormat_nomark path.data hp, renderFormat_cons_of_ne (by decide),
      render_query names vals hn hlen]
  · decide

/-- Witness for C2 at concrete fields q, page. -/
theorem claim_C2_witness :
    urlRender (.named ["q", "page"]) "/find" [.str "cat", .int 3] =
      ⟨"/find".data ++ '?' :: joinSep '&'
        (List.zipWith (fun n v => n.data ++ '=' :: (Val.debugFmt v).data)
          ["q", "page"] [.str "cat", .int 3])⟩ :=
  claim_C2.1 "/find" ["q", "page"] [.str "cat", .int 3] (by decide) (by decide) (by decide)

/-- C3 counterexample: a variant carrying two method annotations is not
rejected; the parser succeeds, taking the last one. -/
theorem claim_C3_counterexample :
    routeVariantFrom dupVariant = .ok ⟨"post", "/b", "Login", .unit⟩ := rfl

/-- C3 (amended): a variant with no pair-yielding annotation is rejected
with a compile-time error; when several matching annotations are present
the parser takes the last matching one (no rejection of duplicates), and a
folder annotation with a string argument never matches. -/
theorem claim_C3 :
    (∀ v : VariantSyn, (∀ a ∈ v.attrs, attrPair a = none) →
      routeVariantFrom v = .error expectMsg) ∧
    (∀ (v : VariantSyn) (pre post : List Attr) (a : Attr) (m p : String),
      v.attrs = pre ++ a :: post → attrPair a = some (m, p) →
      (∀ b ∈ post, attrPair b = none) →
      routeVariantFrom v = .ok ⟨m, p, v.ident, v.fields⟩) ∧
    (∀ (s : String) (st : Option (Option String)),
      attrPair ⟨some "folder", some s, st⟩ = none) := by
  refine ⟨routeVariantFrom_none, ?_, ?_⟩
  · intro v pre post a m p h1 h2 h3
    exact routeVariantFrom_last v pre post a m p h1 h2 h3
  · intro s st
    simp [attrPair]

/-- Witness for C3: the missing-annotation rejection and folder-skipping
last-wins at concrete variants. -/
theorem claim_C3_witness :
    routeVariantFrom bareVariant = .error expectMsg ∧
    routeVariantFrom folderedVariant = .ok ⟨"get", "/docs", "Docs", .unit⟩ :=
  ⟨claim_C3.1 bareVariant (by simp [bareVariant]),
   claim_C3.2.1 folderedVariant
     [{ path := some "folder", arg := some "assets", stateArg := none }] []
     { path := some "get", arg := some "/docs", stateArg := none }
     "get" "/docs" rfl rfl (by simp)⟩

/-- C4 counterexample: `patch` is a registered, accepted annotation whose
keyword the failure diagnostic does not name. -/
theorem claim_C4_counterexample :
    "patch" ∈ routesAttributes ∧
    hasSub expectMsg.data "patch".data = false ∧
    attrPair ⟨some "patch", some "/p", none⟩ = some ("patch", "/p") :=
  ⟨by decide, by decide, rfl⟩

/-- C4 (amended): a schema with a variant lacking any pair-yielding
annotation fails generation with the fixed non-empty diagnostic, which
names the annotation forms get, post, put, delete, state, embed and folder
(but omits patch), and no output is produced. -/
theorem claim_C4 :
    ∀ (s : Schema) (v : VariantSyn), v ∈ s.variants →
      (∀ a ∈ v.attrs, attrPair a = none) →
      routesMacro s = .error expectMsg ∧ expectMsg ≠ "" ∧
      ∀ f ∈ (["get", "post", "put", "delete", "state", "embed", "folder"] : List String),
        hasSub expectMsg.data f.data = true := by
  intro s v hv ha
  refine ⟨?_, by decide, by decide⟩
  have h1 : routeVariantFrom v = .error expectMsg := routeVariantFrom_none v ha
  have h2 : buildVariants s.variants = .error expectMsg := buildVariants_error _ v hv h1
  simp [routesMacro, h2]

/-- Witness for C4 at a concrete schema with an annotation-less variant. -/
theorem claim_C4_witness :
    routesMacro bareSchema = .error expectMsg ∧ expectMsg ≠ "" ∧
    ∀ f ∈ (["get", "post", "put", "delete", "state", "embed", "folder"] : List String),
      hasSub expectMsg.data f.data = true :=
  claim_C4 bareSchema bareVariant (by decide) (by simp [bareVariant])

/-- C5: the identifier transform lowercases the first character and maps
every later character to underscore-plus-lowercase when uppercase and to
itself otherwise; GetAllUsers and HTTPServer transform as stated, and the
transform is idempotent on input without uppercase characters. -/
theorem claim_C5 :
    (∀ (c : Char) (rest : List Char),
      pascal_to_camel ⟨c :: rest⟩ = ⟨c.toLower :: rest.flatMap camelStep⟩) ∧
    pascal_to_camel "GetAllUsers" = "get_all_users" ∧
    pascal_to_camel "HTTPServer" = "h_t_t_p_server" ∧
    ∀ s : String, (∀ ch ∈ s.data, ch.isUpper = false) →
      pascal_to_camel (pascal_to_camel s) = pascal_to_camel s := by
  refine ⟨?_, by decide, by decide, ?_⟩
  · intro c rest
    simp [pascal_to_camel, pascalRest_eq_flatMap]
  · intro s h
    have hs : pascal_to_camel s = s := pascal_fix s h
    rw [hs, hs]

/-- Witness for C5: idempotence discharged at a concrete lowercase
string. -/
theorem claim_C5_witness :
    pascal_to_camel (pascal_to_camel "abc") = pascal_to_camel "abc" :=
  claim_C5.2.2.2 "abc" (by decide)

/-- C6: the url and method functions are generated as case analyses with
identical arm structure: the same patterns in the same (declaration)
order, one arm per variant in both. -/
theorem claim_C6 :
    ∀ (e : String) (rvs : List RouteVariant),
      (urlArmsOf e rvs).map Prod.fst = (methodArmsOf e rvs).map Prod.fst ∧
      (urlArmsOf e rvs).map Prod.fst =
        rvs.map (fun rv => leftPat e rv.variant rv.fields) ∧
      (urlArmsOf e rvs).length = rvs.length ∧
      (methodArmsOf e rvs).length = rvs.length := by
  intro e rvs
  refine ⟨?_, ?_, ?_, ?_⟩ <;> simp [urlArmsOf, methodArmsOf]

/-- C7: each variant yields exactly one route registration, in declaration
order, carrying its path, method and the pascal-to-snake handler name;
the configured state type occurs in the router signature. -/
theorem claim_C7 :
    ∀ (rvs : List RouteVariant) (attrs : List Attr) (i : Nat) (rv : RouteVariant),
      rvs[i]? = some rv →
      (axumRoutes rvs).length = rvs.length ∧
      (axumRoutes rvs)[i]? = some (rv.path, rv.method, pascal_to_camel rv.variant) ∧
      hasSub (routerSigOf attrs).data (stateGeneric attrs).data = true := by
  intro rvs attrs i rv h
  refine ⟨by simp [axumRoutes], ?_, ?_⟩
  · simp [axumRoutes, List.getElem?_map, h]
  · have hdata : (routerSigOf attrs).data =
        "::axum::Router<".data ++ (stateGeneric attrs).data ++ ">".data := by
      simp [routerSigOf, String.data_append]
    rw [hdata]
    exact hasSub_append_mid _ _ _

/-- Witness for C7 at a concrete two-variant route list and a concrete
state annotation. -/
theorem claim_C7_witness :
    (axumRoutes sampleRvs).length = sampleRvs.length ∧
    (axumRoutes sampleRvs)[1]? =
      some ("/items", "post", pascal_to_camel "NewItem") ∧
    hasSub (routerSigOf stateAttrs).data (stateGeneric stateAttrs).data = true :=
  claim_C7 sampleRvs stateAttrs 1 ⟨"post", "/items", "NewItem", .unit⟩ (by decide)

/-- C8: a variant whose last matching annotation has a recognized
identifier but no parseable string argument gets the synthesized pair
("get", "/*file"). -/
theorem claim_C8 :
    ∀ (v : VariantSyn) (pre post : List Attr) (a : Attr) (nm : String),
      v.attrs = pre ++ a :: post → a.path = some nm → a.arg = none →
      nm ∈ routesAttributes →
      (∀ b ∈ post, attrPair b = none) →
      routeVariantFrom v = .ok ⟨"get", "/*file", v.ident, v.fields⟩ := by
  intro v pre post a nm hattrs hpath harg _ hpost
  have hpair : attrPair a = some ("get", "/*file") := by
    obtain ⟨ap, aa, ast⟩ := a
    simp only at hpath harg
    subst hpath harg
    rfl
  exact routeVariantFrom_last v pre post a "get" "/*file" hattrs hpair hpost

/-- Witness for C8 at a concrete embed-annotated variant. -/
theorem claim_C8_witness :
    routeVariantFrom assetsVariant = .ok ⟨"get", "/*file", "Assets", .unit⟩ :=
  claim_C8 assetsVariant [] [] embedAttr "embed" rfl rfl rfl (by decide) (by simp)

/-- C9: with several folder-annotated variants, the folder of the
last-declared one wins; an unparseable folder argument silently falls back
to "static"; at most one asset handler is emitted in every case. -/
theorem claim_C9 :
    ∀ (variants pre post : List VariantSyn) (v1 v2 : VariantSyn) (fa : Attr),
      variants = pre ++ v2 :: post →
      v1 ∈ pre →
      (v1.attrs.find? isFolderAttr).isSome = true →
      v2.attrs.find? isFolderAttr = some fa →
      (∀ w ∈ post, w.attrs.find? isFolderAttr = none) →
      (∀ fs, fa.arg = some fs → folderOf variants = fs) ∧
      (fa.arg = none → folderOf variants = "static") ∧
      (handlersOf variants).length ≤ 1 := by
  intro variants pre post v1 v2 fa hvar hv1 hfold1 hfold2 hpost
  have hlast : folderAttrOf variants = some fa := by
    rw [hvar]
    exact filterMap_getLast_eq _ pre post v2 fa hfold2 hpost
  refine ⟨?_, ?_, ?_⟩
  · intro fs hfs
    simp [folderOf, hlast, hfs]
  · intro hnone
    simp [folderOf, hlast, hnone]
  · cases he : embedIdent variants <;> simp [handlersOf, he]

/-- Witness for C9: last-wins on two concrete folder-annotated variants,
and the "static" fallback when the later argument does not parse. -/
theorem claim_C9_witness :
    folderOf folderVariants = "two" ∧
    (handlersOf folderVariants).length ≤ 1 ∧
    folderOf folderVariantsBad = "static" :=
  ⟨(claim_C9 folderVariants [folderA] [] folderA folderB
      { path := some "folder", arg := some "two", stateArg := none }
      rfl (by decide) (by decide) rfl (by simp)).1 "two" rfl,
   (claim_C9 folderVariants [folderA] [] folderA folderB
      { path := some "folder", arg := some "two", stateArg := none }
      rfl (by decide) (by decide) rfl (by simp)).2.2,
   (claim_C9 folderVariantsBad [folderA] [] folderA folderBadB
      { path := some "folder", arg := none, stateArg := none }
      rfl (by decide) (by decide) rfl (by simp)).2.1 rfl⟩

/-- C10: with an asset-embedding variant designated, the generated router
registers every variant including the asset one — the asset variant at the
synthesized catch-all path "/*file" under method get, with the handler
named by the pascal-to-snake transform of its variant name, which is also
the name of the emitted asset-serving handler. -/
theorem claim_C10 :
    ∀ (s : Schema) (pre post : List VariantSyn) (v : VariantSyn)
      (apre apost : List Attr) (a : Attr) (g : Generated),
      s.variants = pre ++ v :: post →
      v.attrs = apre ++ a :: apost →
      a.path = some "embed" → a.arg = none →
      (∀ b ∈ apost, attrPair b = none) →
      (∀ w ∈ post, carriesEmbed w = false) →
      routesMacro s = .ok g →
      g.routeRegs.length = s.variants.length ∧
      g.routeRegs[pre.length]? = some ("/*file", "get", pascal_to_camel v.ident) ∧
      ∃ folder, g.handlers = [(pascal_to_camel v.ident, folder)] := by
  intro s pre post v apre apost a g hvar hattrs hpath harg hapost hpost hmac
  cases hb : buildVariants s.variants with
  | error e =>
    rw [routesMacro, hb] at hmac
    cases hmac
  | ok rvs =>
    rw [routesMacro, hb] at hmac
    injection hmac with h2
    have hpair : attrPair a = some ("get", "/*file") := by
      obtain ⟨ap, aa, ast⟩ := a
      simp only at hpath harg
      subst hpath harg
      rfl
    have hfromv := routeVariantFrom_last v apre apost a "get" "/*file" hattrs hpair hapost
    have hblen := buildVariants_length s.variants rvs hb
    have hb2 : buildVariants (pre ++ v :: post) = .ok rvs := by rw [← hvar]; exact hb
    obtain ⟨rpre, rv, rpost, hr1, hr2, hr3⟩ := buildVariants_mid pre v post rvs hb2
    rw [hfromv] at hr3
    injection hr3 with hr4
    have hemb : carriesEmbed v = true := by
      rw [carriesEmbed, List.find?_isSome]
      refine ⟨a, ?_, by simp [isEmbedAttr, hpath]⟩
      rw [hattrs]
      exact List.mem_append_right apre (List.mem_cons_self a apost)
    have hfil : (List.filter carriesEmbed s.variants).getLast? = some v := by
      rw [hvar]
      exact filter_getLast_eq carriesEmbed pre post v hemb hpost
    have hembid : embedIdent s.variants = some v.ident := by
      simp [embedIdent, hfil]
    refine ⟨?_, ?_, ?_⟩
    · rw [← h2]
      simp [axumRoutes, hblen]
    · rw [← h2]
      show (axumRoutes rvs)[pre.length]? = _
      rw [hr1, axumRoutes, List.map_append, List.map_cons]
      have hlen2 : pre.length = (rpre.map
          (fun rv => (rv.path, rv.method, pascal_to_camel rv.variant))).length := by
        simp [hr2]
      rw [hlen2, getElem?_append_cons]
      rw [← hr4]
    · rw [← h2]
      show ∃ folder, handlersOf s.variants = [(pascal_to_camel v.ident, folder)]
      exact ⟨folderOf s.variants, by simp [handlersOf, hembid]⟩

/-- Witness for C10 at a concrete schema with one plain route and one
asset variant. -/
theorem claim_C10_witness :
    sampleGen.routeRegs.length = sampleSchema.variants.length ∧
    sampleGen.routeRegs[1]? = some ("/*file", "get", pascal_to_camel "Assets") ∧
    ∃ folder, sampleGen.handlers = [(pascal_to_camel "Assets", folder)] :=
  claim_C10 sampleSchema [healthVariant] [] assetsVariant [] [] embedAttr sampleGen
    rfl rfl rfl rfl (by simp) (by simp) rfl
